import Mathlib

/-!
Verification of the terrain streaming and procedural-generation engine of
the flight simulator in `src/main.js` (class `FlightSimulator`).

The JavaScript is shallowly embedded: numbers are modelled as rationals,
the external seeded noise library (`noise.perlin2` for the fixed process
seed) is a parameter `noise : ℚ → ℚ → ℚ`, `Math.sqrt` is a parameter
`sqrtFn : ℚ → ℚ`, and the global unseeded RNG `Math.random` is a stream
`stream : Nat → ℚ` consumed at an explicit cursor index.  Stateful code
(the chunk store, the load and removal queues) is explicit state passing.
-/

namespace Flight

/-! ### Configuration constants, from the `FlightSimulator` constructor -/

/-- `this.chunkSize = 300` -/
def chunkSize : ℚ := 300

/-- `this.chunksVisible = 5` -/
def chunksVisible : ℤ := 5

/-- `this.loadThreshold = 0.7` -/
def loadThreshold : ℚ := 7 / 10

/-- `this.noiseScale = 0.002` -/
def noiseScale : ℚ := 1 / 500

/-- `this.heightScale = 500` -/
def heightScale : ℚ := 500

/-- `this.lakeThreshold = 0.1` -/
def lakeThreshold : ℚ := 1 / 10

/-- `this.lakeSize = 40.0` -/
def lakeSize : ℚ := 40

/-- `this.treeDensity = 0.0007` -/
def treeDensity : ℚ := 7 / 10000

/-- `this.chunksPerFrame = 3` -/
def chunksPerFrame : Nat := 3

/-- `this.lookAheadDistance = 4` -/
def lookAheadDistance : ℚ := 4

/-- `this.waterLevel = 40` -/
def waterLevel : ℚ := 40

/-- `this.removalsPerFrame = 2` -/
def removalsPerFrame : Nat := 2

theorem chunkSize_pos : (0 : ℚ) < chunkSize := by norm_num [chunkSize]

/-! ### ElevationField: `getElevation(x, z)` -/

/-- `getElevation(x, z)` from `src/main.js`: a base octave plus three finer
octaves at doubled frequencies with weights 0.5, 0.25, 0.125, then
`(elevation + 1) * 0.5 * heightScale`. -/
def getElevation (noise : ℚ → ℚ → ℚ) (x z : ℚ) : ℚ :=
  let e1 := noise (x * noiseScale) (z * noiseScale)
  let e2 := e1 + noise (x * noiseScale * 2) (z * noiseScale * 2) * (1 / 2)
  let e3 := e2 + noise (x * noiseScale * 4) (z * noiseScale * 4) * (1 / 4)
  let e4 := e3 + noise (x * noiseScale * 8) (z * noiseScale * 8) * (1 / 8)
  (e4 + 1) * (1 / 2) * heightScale

/-- Claim C4 as stated, for a definable noise function: the elevation lies
in `[0, heightScale]`. -/
def C4_claim (noise : ℚ → ℚ → ℚ) : Prop :=
  ∀ x z : ℚ, 0 ≤ getElevation noise x z ∧ getElevation noise x z ≤ heightScale

/-- Claim C4 is false: the constant noise function 1 stays inside the
native range `[-1, 1]`, yet `getElevation` at the origin evaluates to
`718.75 > heightScale = 500`, because the weighted octave sum ranges over
`[-1.875, 1.875]` while the normalization `(e + 1) / 2` only maps `[-1, 1]`
into `[0, 1]`. -/
theorem C4_counterexample :
    (∀ p q : ℚ, -1 ≤ (fun (_ _ : ℚ) => (1 : ℚ)) p q ∧
        (fun (_ _ : ℚ) => (1 : ℚ)) p q ≤ 1) ∧
    getElevation (fun _ _ => 1) 0 0 = 2875 / 4 ∧
    ¬ C4_claim (fun _ _ => 1) := by
  refine ⟨fun p q => by norm_num, by norm_num [getElevation, heightScale], ?_⟩
  intro h
  have := (h 0 0).2
  norm_num [getElevation, heightScale] at this

/-- Claim C4 (amended): if every noise sample lies in the native range
`[-1, 1]`, then `getElevation` lies in
`[-(7/16) * heightScale, (23/16) * heightScale]` (that is, `[-218.75, 718.75]`),
not in `[0, heightScale]`: the weighted octave sum lies in `[-15/8, 15/8]`
and is normalized by `(e + 1) * 0.5` and scaled by `heightScale`. -/
theorem C4_elevation_bounds (noise : ℚ → ℚ → ℚ)
    (hrange : ∀ p q : ℚ, -1 ≤ noise p q ∧ noise p q ≤ 1) (x z : ℚ) :
    -(7 / 16) * heightScale ≤ getElevation noise x z ∧
      getElevation noise x z ≤ (23 / 16) * heightScale := by
  obtain ⟨h1l, h1r⟩ := hrange (x * noiseScale) (z * noiseScale)
  obtain ⟨h2l, h2r⟩ := hrange (x * noiseScale * 2) (z * noiseScale * 2)
  obtain ⟨h3l, h3r⟩ := hrange (x * noiseScale * 4) (z * noiseScale * 4)
  obtain ⟨h4l, h4r⟩ := hrange (x * noiseScale * 8) (z * noiseScale * 8)
  unfold getElevation heightScale
  constructor <;> simp only [] <;> nlinarith

/-- Witness for `C4_elevation_bounds` at the constant-one noise function
and the origin. -/
theorem C4_elevation_bounds_witness :
    (∀ p q : ℚ, -1 ≤ (fun (_ _ : ℚ) => (1 : ℚ)) p q ∧
        (fun (_ _ : ℚ) => (1 : ℚ)) p q ≤ 1) ∧
    (-(7 / 16) * heightScale ≤ getElevation (fun _ _ => 1) 0 0 ∧
      getElevation (fun _ _ => 1) 0 0 ≤ (23 / 16) * heightScale) :=
  ⟨fun p q => by norm_num,
    C4_elevation_bounds (fun _ _ => 1) (fun p q => by norm_num) 0 0⟩

/-! ### Chunk generation: `createTerrainChunk(x, z)` -/

/-- JavaScript `Math.PI`, which is the IEEE-754 double closest to π:
exactly `884279719003555 / 2^48`. -/
def mathPI : ℚ := 884279719003555 / 281474976710656

/-- Newton iteration for the integer square root, with explicit fuel. -/
def sqrtLoop : Nat → Nat → Nat → Nat
  | 0, _, g => g
  | fuel + 1, n, g =>
    let g2 := (g + n / g) / 2
    if g2 < g then sqrtLoop fuel n g2 else g

/-- Integer square root by Newton iteration (`⌊√n⌋`). -/
def natSqrt (n : Nat) : Nat := if n ≤ 1 then n else sqrtLoop n n (n / 2)

/-- Model of `Math.sqrt`, exact on rationals whose reduced numerator and
denominator are perfect squares (the only points at which theorems below
evaluate it; elsewhere it stands in for the irrational square root). -/
def ratSqrt (q : ℚ) : ℚ := (natSqrt q.num.toNat : ℚ) / (natSqrt q.den : ℚ)

/-- One vegetation instance: the `{ trunk, top }` pair pushed onto
`chunk.trees`, described by its shared position, yaw and scale. -/
structure TreeInst where
  px : ℚ
  pz : ℚ
  py : ℚ
  rot : ℚ
  scale : ℚ
  deriving DecidableEq

/-- The water plane created for a lake chunk: position
`(x * chunkSize, waterLevel, z * chunkSize)` and side length
`chunkSize * lakeSize`. -/
structure WaterBody where
  wx : ℚ
  wy : ℚ
  wz : ℚ
  size : ℚ
  deriving DecidableEq

/-- A materialized chunk: the stored height of the vertex at local grid
offset `(lx, lz)` (the mesh is a 41×41 grid over
`[-chunkSize/2, chunkSize/2]²` centered at `(x*chunkSize, z*chunkSize)`),
its vegetation instances, and its optional water body. -/
structure ChunkData where
  heights : ℚ → ℚ → ℚ
  trees : List TreeInst
  water : Option WaterBody

/-- Local coordinate of the `j`-th grid line of the 41×41 chunk mesh
(`PlaneGeometry(chunkSize, chunkSize, 40, 40)`):
`-chunkSize/2 + j * chunkSize/40`. -/
def gridCoord (j : Fin 41) : ℚ := -(chunkSize / 2) + (j : ℚ) * (chunkSize / 40)

/-- `numberOfTrees = Math.floor(chunkArea * treeDensity)` with
`chunkArea = chunkSize * chunkSize`. -/
def numberOfTrees : Nat := (chunkSize * chunkSize * treeDensity).floor.toNat

/-- The tree-placement loop of `createTerrainChunk`: `n` candidate draws
starting at RNG cursor `i`.  Each candidate draws a position inside the
chunk footprint; it is accepted when the elevation one unit along +x
differs by less than 3, in which case yaw and scale are also drawn. -/
def treesLoop (noise : ℚ → ℚ → ℚ) (stream : Nat → ℚ) (x z : ℤ) :
    Nat → Nat → List TreeInst × Nat
  | 0, i => ([], i)
  | n + 1, i =>
    let treeX := (stream i - 1 / 2) * chunkSize + (x : ℚ) * chunkSize
    let treeZ := (stream (i + 1) - 1 / 2) * chunkSize + (z : ℚ) * chunkSize
    let treeY := getElevation noise treeX treeZ
    let slopeCheck1 := getElevation noise (treeX + 1) treeZ
    if |slopeCheck1 - treeY| < 3 then
      let rot := stream (i + 2) * mathPI * 2
      let sc := 9 / 10 + stream (i + 3) * (1 / 5)
      let rest := treesLoop noise stream x z n (i + 4)
      (⟨treeX, treeZ, treeY, rot, sc⟩ :: rest.1, rest.2)
    else
      treesLoop noise stream x z n (i + 2)

/-- Height stored for the vertex at local offset `(lx, lz)` of chunk
`(x, z)` before any lake carving: the world position of that vertex is
`(lx + x*chunkSize, lz + z*chunkSize)`. -/
def rawHeight (noise : ℚ → ℚ → ℚ) (x z : ℤ) (lx lz : ℚ) : ℚ :=
  getElevation noise (lx + (x : ℚ) * chunkSize) (lz + (z : ℚ) * chunkSize)

/-- Lake-suitability sample of chunk `(x, z)`:
`noise.perlin2(chunkCenterX * 0.001, chunkCenterZ * 0.001)` with
`chunkCenterX = x * chunkSize`. -/
def lakeNoise (noise : ℚ → ℚ → ℚ) (x z : ℤ) : ℚ :=
  noise ((x : ℚ) * chunkSize * (1 / 1000)) ((z : ℚ) * chunkSize * (1 / 1000))

/-- Basin carving applied to each vertex of a lake chunk: for a vertex at
local offset `(lx, lz)` with height `h`, when `h < waterLevel + 10` the
height becomes `min h (waterLevel - 15 + smoothFactor * 10)` where
`smoothFactor = 1 - min (d / (chunkSize * lakeSize * 0.5)) 1` and `d` is
the distance from the chunk center. -/
def carveBasin (sqrtFn : ℚ → ℚ) (lx lz h : ℚ) : ℚ :=
  let distanceFromCenter := sqrtFn (lx ^ 2 + lz ^ 2)
  if h < waterLevel + 10 then
    let smoothFactor := 1 - min (distanceFromCenter / (chunkSize * lakeSize * (1 / 2))) 1
    min h (waterLevel - 15 + smoothFactor * 10)
  else h

/-- `createTerrainChunk(x, z)`: samples the 41×41 height grid from
`getElevation`, runs the tree-placement loop (consuming the RNG stream
from cursor `i`), then, when the lake-suitability sample exceeds
`lakeThreshold`, attaches a water body and carves the basin into the
stored heights.  Returns the chunk and the advanced RNG cursor. -/
def createTerrainChunk (noise : ℚ → ℚ → ℚ) (sqrtFn : ℚ → ℚ)
    (stream : Nat → ℚ) (i : Nat) (x z : ℤ) : ChunkData × Nat :=
  let tp := treesLoop noise stream x z numberOfTrees i
  if lakeNoise noise x z > lakeThreshold then
    ({ heights := fun lx lz => carveBasin sqrtFn lx lz (rawHeight noise x z lx lz)
       trees := tp.1
       water := some { wx := (x : ℚ) * chunkSize, wy := waterLevel,
                       wz := (z : ℚ) * chunkSize,
                       size := chunkSize * lakeSize } }, tp.2)
  else
    ({ heights := fun lx lz => rawHeight noise x z lx lz
       trees := tp.1
       water := none }, tp.2)

/-- Claim C5: a chunk's decoration result contains a water body exactly
when the chunk-center lake-suitability noise sample exceeds
`lakeThreshold`; at or below the threshold no water body is attached. -/
theorem C5_lake_iff (noise : ℚ → ℚ → ℚ) (sqrtFn : ℚ → ℚ)
    (stream : Nat → ℚ) (i : Nat) (x z : ℤ) :
    ((createTerrainChunk noise sqrtFn stream i x z).1.water).isSome ↔
      lakeNoise noise x z > lakeThreshold := by
  by_cases h : lakeNoise noise x z > lakeThreshold <;>
    simp [createTerrainChunk, h]

/-- Claim C1 (amended): regenerating a chunk at the same coordinate — a
second `createTerrainChunk` call at the same `(x, z)` with the RNG cursor
advanced by the first call — produces identical stored height samples and
the same lake decision (including the water body itself); the vegetation
instances are not covered, since their positions are drawn from the
unseeded global `Math.random` stream (see `C1_counterexample`).
`getElevation` itself is a pure function of `(x, z)` and the fixed seeded
noise, so repeated elevation queries are identical by construction. -/
theorem C1_regeneration (noise : ℚ → ℚ → ℚ) (sqrtFn : ℚ → ℚ)
    (stream : Nat → ℚ) (i : Nat) (x z : ℤ) :
    (createTerrainChunk noise sqrtFn stream
        ((createTerrainChunk noise sqrtFn stream i x z).2) x z).1.heights =
      (createTerrainChunk noise sqrtFn stream i x z).1.heights ∧
    (createTerrainChunk noise sqrtFn stream
        ((createTerrainChunk noise sqrtFn stream i x z).2) x z).1.water =
      (createTerrainChunk noise sqrtFn stream i x z).1.water := by
  by_cases h : lakeNoise noise x z > lakeThreshold <;>
    simp [createTerrainChunk, h]

/-- The `Math.random` stream used to refute claim C1: the first
`createTerrainChunk` call at the origin consumes 252 values (63 candidates,
all accepted on flat terrain, 4 draws each), so the two calls read disjoint
parts of the stream. -/
def streamC1 : Nat → ℚ := fun i => if i < 252 then 0 else 1 / 2

/-- Claim C1 is false for the vegetation part: over flat terrain (constant
zero noise) all candidates are accepted, and with `streamC1` the first call
places its first tree at local x offset `-150` while the regeneration call,
reading the stream after the 252 values consumed by the first call, places
its first tree at offset `0`; the two vegetation instance lists differ. -/
theorem C1_counterexample :
    (createTerrainChunk (fun _ _ => 0) ratSqrt streamC1
        ((createTerrainChunk (fun _ _ => 0) ratSqrt streamC1 0 0 0).2) 0 0).1.trees ≠
      (createTerrainChunk (fun _ _ => 0) ratSqrt streamC1 0 0 0).1.trees :=
  of_decide_eq_true (by with_unfolding_all rfl)

/-- Claim C2 (amended): chunks `(0,0)` and `(1,0)` share the world edge
`x = chunkSize/2` (each mesh is centered on its chunk coordinate), i.e.
local offset `+chunkSize/2` of chunk A and `-chunkSize/2` of chunk B.  For
every shared grid `z` the raw height samples there are equal for every
noise function (both are `getElevation` at the same world point); the
stored (post-decoration) samples are equal whenever neither chunk carves a
lake basin.  `C2_counterexample` shows equality of stored samples fails
for all seeds once one chunk carves a basin, and at world `x = chunkSize`
chunk A has no grid sample at all. -/
theorem C2_seam_continuity (noise : ℚ → ℚ → ℚ) (sqrtFn : ℚ → ℚ)
    (stream : Nat → ℚ) (i₁ i₂ : Nat) (j : Fin 41) :
    rawHeight noise 0 0 (chunkSize / 2) (gridCoord j) =
      rawHeight noise 1 0 (-(chunkSize / 2)) (gridCoord j) ∧
    (lakeNoise noise 0 0 ≤ lakeThreshold → lakeNoise noise 1 0 ≤ lakeThreshold →
      (createTerrainChunk noise sqrtFn stream i₁ 0 0).1.heights
          (chunkSize / 2) (gridCoord j) =
        (createTerrainChunk noise sqrtFn stream i₂ 1 0).1.heights
          (-(chunkSize / 2)) (gridCoord j)) := by
  have hraw : rawHeight noise 0 0 (chunkSize / 2) (gridCoord j) =
      rawHeight noise 1 0 (-(chunkSize / 2)) (gridCoord j) := by
    unfold rawHeight
    norm_num [chunkSize]
  refine ⟨hraw, fun hA hB => ?_⟩
  simp only [createTerrainChunk, if_neg (not_lt.2 hA), if_neg (not_lt.2 hB)]
  exact hraw

/-- Witness for `C2_seam_continuity` at the constant-zero noise function
(no lake on either side) and the shared-edge grid point `j = 0`. -/
theorem C2_seam_continuity_witness :
    lakeNoise (fun _ _ => 0) 0 0 ≤ lakeThreshold ∧
    lakeNoise (fun _ _ => 0) 1 0 ≤ lakeThreshold ∧
    (createTerrainChunk (fun _ _ => 0) ratSqrt (fun _ => 0) 0 0 0).1.heights
        (chunkSize / 2) (gridCoord 0) =
      (createTerrainChunk (fun _ _ => 0) ratSqrt (fun _ => 0) 0 1 0).1.heights
        (-(chunkSize / 2)) (gridCoord 0) :=
  ⟨by norm_num [lakeNoise, lakeThreshold],
   by norm_num [lakeNoise, lakeThreshold],
   (C2_seam_continuity (fun _ _ => 0) ratSqrt (fun _ => 0) 0 0 0).2
     (by norm_num [lakeNoise, lakeThreshold])
     (by norm_num [lakeNoise, lakeThreshold])⟩

/-- A seed for which chunk `(0,0)` gets a lake (`lakeNoise = 0.5 > 0.1`),
chunk `(1,0)` does not (`lakeNoise = -0.82`), and the shared-edge
elevation is 45, low enough to be carved on the lake side only. -/
def noiseC2 : ℚ → ℚ → ℚ := fun p q =>
  if p = 0 ∧ q = 0 then 0.5 else if p = 0.3 ∧ q = 0 then -0.82 else 0

/-- Claim C2 is false as stated ("for all seeds"): with seed `noiseC2`,
chunk `(0,0)` carves a lake basin and chunk `(1,0)` does not, so at the
shared world position `(150, 0)` — local offset `+chunkSize/2` of A
(grid line 40) and `-chunkSize/2` of B (grid line 0) — chunk A stores the
carved height `34.75` while chunk B stores the raw height `45`. -/
theorem C2_counterexample :
    lakeNoise noiseC2 0 0 > lakeThreshold ∧
    lakeNoise noiseC2 1 0 ≤ lakeThreshold ∧
    (createTerrainChunk noiseC2 ratSqrt (fun _ => 0) 0 0 0).1.heights
        (gridCoord 40) (gridCoord 20) = 34.75 ∧
    (createTerrainChunk noiseC2 ratSqrt (fun _ => 0) 0 1 0).1.heights
        (-(gridCoord 40)) (gridCoord 20) = 45 ∧
    (34.75 : ℚ) ≠ 45 :=
  of_decide_eq_true (by with_unfolding_all rfl)

/-- Helper for claim C6: the tree loop emits at most one instance per
candidate draw. -/
theorem treesLoop_length_le (noise : ℚ → ℚ → ℚ) (stream : Nat → ℚ)
    (x z : ℤ) : ∀ n i, (treesLoop noise stream x z n i).1.length ≤ n := by
  intro n
  induction n with
  | zero => intro i; simp [treesLoop]
  | succ n ih =>
    intro i
    simp only [treesLoop]
    split
    · simpa using ih (i + 4)
    · exact le_trans (ih (i + 2)) (Nat.le_succ n)

/-- Helper for claim C6: every accepted instance sits inside the chunk
footprint (when the RNG stream stays in `[0, 1)`) and passes the flatness
check: the elevation one unit along +x differs from the elevation at the
instance by less than 3. -/
theorem treesLoop_mem_spec (noise : ℚ → ℚ → ℚ) (stream : Nat → ℚ)
    (x z : ℤ) (hs : ∀ j, 0 ≤ stream j ∧ stream j < 1) :
    ∀ n i, ∀ t ∈ (treesLoop noise stream x z n i).1,
      ((x : ℚ) * chunkSize - chunkSize / 2 ≤ t.px ∧
        t.px < (x : ℚ) * chunkSize + chunkSize / 2) ∧
      ((z : ℚ) * chunkSize - chunkSize / 2 ≤ t.pz ∧
        t.pz < (z : ℚ) * chunkSize + chunkSize / 2) ∧
      |getElevation noise (t.px + 1) t.pz - getElevation noise t.px t.pz| < 3 := by
  intro n
  induction n with
  | zero => intro i t ht; simp [treesLoop] at ht
  | succ n ih =>
    intro i t ht
    simp only [treesLoop] at ht
    by_cases hacc :
        |getElevation noise
            ((stream i - 1 / 2) * chunkSize + (x : ℚ) * chunkSize + 1)
            ((stream (i + 1) - 1 / 2) * chunkSize + (z : ℚ) * chunkSize) -
          getElevation noise
            ((stream i - 1 / 2) * chunkSize + (x : ℚ) * chunkSize)
            ((stream (i + 1) - 1 / 2) * chunkSize + (z : ℚ) * chunkSize)| < 3
    · rw [if_pos hacc] at ht
      rcases List.mem_cons.1 ht with rfl | ht'
      · refine ⟨⟨?_, ?_⟩, ⟨?_, ?_⟩, hacc⟩ <;>
          [nlinarith [(hs i).1, (hs i).2, chunkSize_pos];
           nlinarith [(hs i).1, (hs i).2, chunkSize_pos];
           nlinarith [(hs (i + 1)).1, (hs (i + 1)).2, chunkSize_pos];
           nlinarith [(hs (i + 1)).1, (hs (i + 1)).2, chunkSize_pos]]
      · exact ih (i + 4) t ht'
    · rw [if_neg hacc] at ht
      exact ih (i + 2) t ht

/-- Claim C6: a chunk accepts at most
`floor(chunkArea * treeDensity)` vegetation instances; each candidate
position is an affine image of a unit-interval RNG draw and so lies inside
the chunk footprint (when the RNG stream stays in `[0, 1)`); and a
candidate is accepted only if the elevation difference to the offset
point one unit along +x is below the flatness threshold 3. -/
theorem C6_vegetation (noise : ℚ → ℚ → ℚ) (sqrtFn : ℚ → ℚ)
    (stream : Nat → ℚ) (i : Nat) (x z : ℤ)
    (hs : ∀ j, 0 ≤ stream j ∧ stream j < 1) :
    (createTerrainChunk noise sqrtFn stream i x z).1.trees.length ≤
      (chunkSize * chunkSize * treeDensity).floor.toNat ∧
    ∀ t ∈ (createTerrainChunk noise sqrtFn stream i x z).1.trees,
      ((x : ℚ) * chunkSize - chunkSize / 2 ≤ t.px ∧
        t.px < (x : ℚ) * chunkSize + chunkSize / 2) ∧
      ((z : ℚ) * chunkSize - chunkSize / 2 ≤ t.pz ∧
        t.pz < (z : ℚ) * chunkSize + chunkSize / 2) ∧
      |getElevation noise (t.px + 1) t.pz - getElevation noise t.px t.pz| < 3 := by
  have htrees : (createTerrainChunk noise sqrtFn stream i x z).1.trees =
      (treesLoop noise stream x z numberOfTrees i).1 := by
    by_cases h : lakeNoise noise x z > lakeThreshold <;>
      simp [createTerrainChunk, h]
  rw [htrees]
  exact ⟨treesLoop_length_le noise stream x z numberOfTrees i,
    treesLoop_mem_spec noise stream x z hs numberOfTrees i⟩

/-- Witness for `C6_vegetation` over flat terrain with the constant-zero
RNG stream. -/
theorem C6_vegetation_witness :
    (∀ j : Nat, 0 ≤ (fun (_ : Nat) => (0 : ℚ)) j ∧
        (fun (_ : Nat) => (0 : ℚ)) j < 1) ∧
    ((createTerrainChunk (fun _ _ => 0) ratSqrt (fun _ => 0) 0 0 0).1.trees.length ≤
      (chunkSize * chunkSize * treeDensity).floor.toNat) :=
  ⟨fun j => by norm_num,
    (C6_vegetation (fun _ _ => 0) ratSqrt (fun _ => 0) 0 0 0
      (fun j => by norm_num)).1⟩

/-! ### StreamingScheduler: `updateTerrain()` and `createInitialTerrain()`

The scheduler never inspects chunk payloads, only coordinates, so the
chunk type is a parameter `α` and chunk materialization is the parameter
`gen : Nat → ℤ → ℤ → α × Nat` (RNG cursor in, chunk and advanced cursor
out; `createTerrainChunk` composed with a noise function has this shape). -/

/-- A load-queue work item `{ key, x, z, priority }` pushed by
`updateTerrain`. -/
structure LoadItem where
  cx : ℤ
  cz : ℤ
  priority : ℚ
  deriving DecidableEq

/-- The engine state: the chunk store `terrainChunks` (a JS `Map`, kept in
insertion order), `chunkLoadQueue`, `chunkRemovalQueue` (each removal entry
keeps its chunk, as in the source), and the `Math.random` cursor. -/
structure SimState (α : Type) where
  store : List ((ℤ × ℤ) × α)
  loadQ : List LoadItem
  removalQ : List ((ℤ × ℤ) × α)
  rngIdx : Nat

/-- Observer state read once per frame: camera position and the heading
vector obtained from the camera quaternion. -/
structure FrameInput where
  camX : ℚ
  camZ : ℚ
  dirX : ℚ
  dirZ : ℚ

/-- The coordinates (keys) of a store or removal-queue association list. -/
def keysOf {α : Type} (l : List ((ℤ × ℤ) × α)) : List (ℤ × ℤ) :=
  l.map Prod.fst

/-- The coordinates of the load-queue items. -/
def qKeys (q : List LoadItem) : List (ℤ × ℤ) :=
  q.map fun it => (it.cx, it.cz)

/-- `Map.set`: replace the entry in place when the key is present,
append otherwise. -/
def storeSet {α : Type} (l : List ((ℤ × ℤ) × α)) (k : ℤ × ℤ) (c : α) :
    List ((ℤ × ℤ) × α) :=
  if k ∈ keysOf l then l.map fun e => if e.1 = k then (k, c) else e
  else l ++ [(k, c)]

/-- `Map.delete`. -/
def storeDelete {α : Type} (l : List ((ℤ × ℤ) × α)) (k : ℤ × ℤ) :
    List ((ℤ × ℤ) × α) :=
  l.filter fun e => decide (e.1 ≠ k)

/-- JavaScript `Math.round` (half-up, also for negative arguments). -/
def jsRound (q : ℚ) : ℤ := ⌊q + 1 / 2⌋

/-- `currentChunkX = Math.floor(camera.position.x / chunkSize)`. -/
def currentChunkX (inp : FrameInput) : ℤ := ⌊inp.camX / chunkSize⌋

/-- `currentChunkZ = Math.floor(camera.position.z / chunkSize)`. -/
def currentChunkZ (inp : FrameInput) : ℤ := ⌊inp.camZ / chunkSize⌋

/-- `progressX = exactChunkX - currentChunkX`. -/
def progressX (inp : FrameInput) : ℚ := inp.camX / chunkSize - currentChunkX inp

/-- `progressZ = exactChunkZ - currentChunkZ`. -/
def progressZ (inp : FrameInput) : ℚ := inp.camZ / chunkSize - currentChunkZ inp

/-- `predictedX = currentChunkX + Math.round(direction.x * lookAheadDistance)`. -/
def predictedX (inp : FrameInput) : ℤ :=
  currentChunkX inp + jsRound (inp.dirX * lookAheadDistance)

/-- `predictedZ = currentChunkZ + Math.round(direction.z * lookAheadDistance)`. -/
def predictedZ (inp : FrameInput) : ℤ :=
  currentChunkZ inp + jsRound (inp.dirZ * lookAheadDistance)

/-- The priority score computed at enqueue time for a missing wanted
coordinate `(x, z)`: directional bonuses of 5 per axis when the observer
is far enough through the current chunk and the candidate lies ahead,
plus `10 - distance` inside the look-ahead cone around the predicted
chunk, else `-distance`. -/
def chunkPriority (inp : FrameInput) (x z : ℤ) : ℚ :=
  let cx := currentChunkX inp
  let cz := currentChunkZ inp
  let distanceFromCurrent : ℤ := max |x - cx| |z - cz|
  let p1 : ℚ :=
    if inp.dirX > 0 ∧ progressX inp > loadThreshold then
      (if x > cx then 5 else 0)
    else if inp.dirX < 0 ∧ progressX inp < 1 - loadThreshold then
      (if x < cx then 5 else 0)
    else 0
  let p2 : ℚ :=
    if inp.dirZ > 0 ∧ progressZ inp > loadThreshold then
      (if z > cz then 5 else 0)
    else if inp.dirZ < 0 ∧ progressZ inp < 1 - loadThreshold then
      (if z < cz then 5 else 0)
    else 0
  let inDirectionCone := |x - predictedX inp| ≤ 2 ∧ |z - predictedZ inp| ≤ 2
  p1 + p2 +
    (if inDirectionCone then 10 - (distanceFromCurrent : ℚ)
     else -(distanceFromCurrent : ℚ))

/-- The double loop `x = cx - chunksVisible .. cx + chunksVisible`,
`z = cz - chunksVisible .. cz + chunksVisible` (x outer, both ascending). -/
def wantCoords (cx cz : ℤ) : List (ℤ × ℤ) :=
  (List.range 11).flatMap fun i =>
    (List.range 11).map fun j =>
      (cx - chunksVisible + (i : ℤ), cz - chunksVisible + (j : ℤ))

/-- The load-enqueue phase of `updateTerrain`: walk the want window and
push `{key, x, z, priority}` for each coordinate neither stored nor
already queued. -/
def enqueueLoads {α : Type} (inp : FrameInput) (store : List ((ℤ × ℤ) × α))
    (q0 : List LoadItem) : List LoadItem :=
  (wantCoords (currentChunkX inp) (currentChunkZ inp)).foldl
    (fun q k =>
      if k ∉ keysOf store ∧ k ∉ qKeys q then
        q ++ [⟨k.1, k.2, chunkPriority inp k.1 k.2⟩]
      else q)
    q0

/-- The removal-enqueue phase of `updateTerrain`: walk the store (in map
order) and push every entry outside the visible window that is not
already queued for removal. -/
def enqueueRemovals {α : Type} (inp : FrameInput)
    (store : List ((ℤ × ℤ) × α)) (rq0 : List ((ℤ × ℤ) × α)) :
    List ((ℤ × ℤ) × α) :=
  store.foldl
    (fun rq e =>
      if (chunksVisible < |e.1.1 - currentChunkX inp| ∨
            chunksVisible < |e.1.2 - currentChunkZ inp|) ∧
          e.1 ∉ keysOf rq then
        rq ++ [e]
      else rq)
    rq0

/-- The load-drain loop: pop and materialize up to `chunksPerFrame` items
from the (sorted) queue, inserting each chunk into the store. -/
def drainLoads {α : Type} (gen : Nat → ℤ → ℤ → α × Nat) :
    Nat → List LoadItem → List ((ℤ × ℤ) × α) → Nat →
      List LoadItem × List ((ℤ × ℤ) × α) × Nat
  | 0, q, store, ri => (q, store, ri)
  | _ + 1, [], store, ri => ([], store, ri)
  | n + 1, it :: q, store, ri =>
    let g := gen ri it.cx it.cz
    drainLoads gen n q (storeSet store (it.cx, it.cz) g.1) g.2

/-- The removal-drain loop: pop up to `removalsPerFrame` entries, delete
each from the store (the scene-graph unregistration has no effect on this
state). -/
def drainRemovals {α : Type} :
    Nat → List ((ℤ × ℤ) × α) → List ((ℤ × ℤ) × α) →
      List ((ℤ × ℤ) × α) × List ((ℤ × ℤ) × α)
  | 0, rq, store => (rq, store)
  | _ + 1, [], store => ([], store)
  | n + 1, e :: rq, store => drainRemovals n rq (storeDelete store e.1)

/-- Descending-priority comparator: `(a, b) => b.priority - a.priority`
given to the stable JS sort. -/
def priorityGE (a b : LoadItem) : Bool := decide (b.priority ≤ a.priority)

/-- One `updateTerrain()` call: enqueue missing wanted chunks with their
priorities, enqueue out-of-range chunks for removal, sort the load queue
by descending priority, materialize up to `chunksPerFrame` items, then
evict up to `removalsPerFrame` removal entries. -/
def stepSim {α : Type} (gen : Nat → ℤ → ℤ → α × Nat) (inp : FrameInput)
    (s : SimState α) : SimState α :=
  let q1 := enqueueLoads inp s.store s.loadQ
  let rq1 := enqueueRemovals inp s.store s.removalQ
  let sorted := q1.mergeSort priorityGE
  let dl := drainLoads gen chunksPerFrame sorted s.store s.rngIdx
  let dr := drainRemovals removalsPerFrame rq1 dl.2.1
  { store := dr.2, loadQ := dl.1, removalQ := dr.1, rngIdx := dl.2.2 }

/-- The coordinates generated by `createInitialTerrain`: the same
`(-chunksVisible .. chunksVisible)²` double loop around the origin. -/
def initCoords : List (ℤ × ℤ) := wantCoords 0 0

/-- The `createInitialTerrain` loop body: `createTerrainChunk(x, z)` then
`terrainChunks.set`, one coordinate at a time. -/
def initFold {α : Type} (gen : Nat → ℤ → ℤ → α × Nat) :
    List (ℤ × ℤ) → List ((ℤ × ℤ) × α) × Nat → List ((ℤ × ℤ) × α) × Nat
  | [], acc => acc
  | k :: coords, acc =>
    let g := gen acc.2 k.1 k.2
    initFold gen coords (storeSet acc.1 k g.1, g.2)

/-- `createInitialTerrain()`: synchronously materialize every coordinate
of the initial window directly into the store; both queues start empty. -/
def initSim {α : Type} (gen : Nat → ℤ → ℤ → α × Nat) : SimState α :=
  let st := initFold gen initCoords ([], 0)
  { store := st.1, loadQ := [], removalQ := [], rngIdx := st.2 }

/-- A sequence of frames: `updateTerrain` once per frame. -/
def runSim {α : Type} (gen : Nat → ℤ → ℤ → α × Nat)
    (frames : List FrameInput) (s : SimState α) : SimState α :=
  frames.foldl (fun s inp => stepSim gen inp s) s

/-- The state invariant of claim C3: no duplicate live coordinate in the
store, no duplicate coordinate inside either queue, every load-queued
coordinate absent from the store, every removal-queued coordinate present
in the store. -/
def Inv {α : Type} (s : SimState α) : Prop :=
  (keysOf s.store).Nodup ∧
  (qKeys s.loadQ).Nodup ∧
  (keysOf s.removalQ).Nodup ∧
  (∀ k ∈ qKeys s.loadQ, k ∉ keysOf s.store) ∧
  (∀ k ∈ keysOf s.removalQ, k ∈ keysOf s.store)

/-! ### Scheduler lemmas -/

theorem keysOf_storeSet {α : Type} (l : List ((ℤ × ℤ) × α)) (k : ℤ × ℤ)
    (c : α) :
    keysOf (storeSet l k c) =
      if k ∈ keysOf l then keysOf l else keysOf l ++ [k] := by
  unfold storeSet
  split
  · simp only [keysOf, List.map_map, if_true]
    exact List.map_congr_left fun e _ => by
      by_cases h : e.1 = k <;> simp [h]
  · simp [keysOf]

theorem mem_keysOf_storeSet {α : Type} (l : List ((ℤ × ℤ) × α))
    (k k' : ℤ × ℤ) (c : α) :
    k' ∈ keysOf (storeSet l k c) ↔ k' ∈ keysOf l ∨ k' = k := by
  rw [keysOf_storeSet]
  split
  · rename_i h
    constructor
    · exact Or.inl
    · rintro (h' | rfl)
      · exact h'
      · exact h
  · simp

theorem nodup_keysOf_storeSet {α : Type} (l : List ((ℤ × ℤ) × α))
    (k : ℤ × ℤ) (c : α) (h : (keysOf l).Nodup) :
    (keysOf (storeSet l k c)).Nodup := by
  rw [keysOf_storeSet]
  split
  · exact h
  · rename_i hk
    rw [List.nodup_append]
    refine ⟨h, List.nodup_singleton _, ?_⟩
    intro a ha hb
    rcases List.mem_singleton.1 hb with rfl
    exact hk ha

theorem mem_keysOf_storeDelete {α : Type} (l : List ((ℤ × ℤ) × α))
    (k k' : ℤ × ℤ) :
    k' ∈ keysOf (storeDelete l k) ↔ k' ∈ keysOf l ∧ k' ≠ k := by
  simp only [storeDelete, keysOf, List.mem_map, List.mem_filter,
    decide_eq_true_iff]
  constructor
  · rintro ⟨e, ⟨he, hne⟩, rfl⟩
    exact ⟨⟨e, he, rfl⟩, hne⟩
  · rintro ⟨⟨e, he, rfl⟩, hne⟩
    exact ⟨e, ⟨he, hne⟩, rfl⟩

theorem nodup_keysOf_storeDelete {α : Type} (l : List ((ℤ × ℤ) × α))
    (k : ℤ × ℤ) (h : (keysOf l).Nodup) :
    (keysOf (storeDelete l k)).Nodup :=
  List.Nodup.sublist (List.Sublist.map Prod.fst (List.filter_sublist _)) h

theorem enqueueLoads_mem {α : Type} (inp : FrameInput)
    (store : List ((ℤ × ℤ) × α)) :
    ∀ (coords : List (ℤ × ℤ)) (q : List LoadItem),
      ∀ it ∈ coords.foldl
        (fun q k =>
          if k ∉ keysOf store ∧ k ∉ qKeys q then
            q ++ [⟨k.1, k.2, chunkPriority inp k.1 k.2⟩]
          else q) q,
      it ∈ q ∨ ((it.cx, it.cz) ∉ qKeys q ∧ (it.cx, it.cz) ∉ keysOf store) := by
  intro coords
  induction coords with
  | nil => intro q it hit; exact Or.inl hit
  | cons k coords ih =>
    intro q it hit
    rw [List.foldl_cons] at hit
    by_cases hg : k ∉ keysOf store ∧ k ∉ qKeys q
    · rw [if_pos hg] at hit
      rcases ih _ it hit with hmem | ⟨hq, hs⟩
      · rcases List.mem_append.1 hmem with hq | hone
        · exact Or.inl hq
        · right
          rcases List.mem_singleton.1 hone with rfl
          simpa [Prod.mk.eta] using ⟨hg.2, hg.1⟩
      · refine Or.inr ⟨fun hk => hq ?_, hs⟩
        unfold qKeys at hk ⊢
        rw [List.map_append]
        exact List.mem_append_left _ hk
    · rw [if_neg hg] at hit
      exact ih _ it hit

theorem enqueueLoads_nodup {α : Type} (inp : FrameInput)
    (store : List ((ℤ × ℤ) × α)) :
    ∀ (coords : List (ℤ × ℤ)) (q : List LoadItem), (qKeys q).Nodup →
      (qKeys (coords.foldl
        (fun q k =>
          if k ∉ keysOf store ∧ k ∉ qKeys q then
            q ++ [⟨k.1, k.2, chunkPriority inp k.1 k.2⟩]
          else q) q)).Nodup := by
  intro coords
  induction coords with
  | nil => intro q hq; exact hq
  | cons k coords ih =>
    intro q hq
    rw [List.foldl_cons]
    by_cases hg : k ∉ keysOf store ∧ k ∉ qKeys q
    · rw [if_pos hg]
      refine ih _ ?_
      simp only [qKeys, List.map_append, List.map_cons, List.map_nil]
      rw [List.nodup_append]
      refine ⟨hq, List.nodup_singleton _, ?_⟩
      intro a ha hb
      rcases List.mem_singleton.1 hb with rfl
      exact hg.2 (by simpa [qKeys, Prod.mk.eta] using ha)
    · rw [if_neg hg]
      exact ih _ hq

theorem enqueueRemovals_mem {α : Type} (inp : FrameInput) :
    ∀ (entries : List ((ℤ × ℤ) × α)) (rq : List ((ℤ × ℤ) × α)),
      ∀ e ∈ entries.foldl
        (fun rq e =>
          if (chunksVisible < |e.1.1 - currentChunkX inp| ∨
                chunksVisible < |e.1.2 - currentChunkZ inp|) ∧
              e.1 ∉ keysOf rq then
            rq ++ [e]
          else rq) rq,
      e ∈ rq ∨ e ∈ entries := by
  intro entries
  induction entries with
  | nil => intro rq e he; exact Or.inl he
  | cons x entries ih =>
    intro rq e he
    rw [List.foldl_cons] at he
    by_cases hg : (chunksVisible < |x.1.1 - currentChunkX inp| ∨
        chunksVisible < |x.1.2 - currentChunkZ inp|) ∧ x.1 ∉ keysOf rq
    · rw [if_pos hg] at he
      rcases ih _ e he with hmem | hent
      · rcases List.mem_append.1 hmem with hq | hone
        · exact Or.inl hq
        · rcases List.mem_singleton.1 hone with rfl
          exact Or.inr (List.mem_cons_self _ _)
      · exact Or.inr (List.mem_cons_of_mem _ hent)
    · rw [if_neg hg] at he
      rcases ih _ e he with hq | hent
      · exact Or.inl hq
      · exact Or.inr (List.mem_cons_of_mem _ hent)

theorem enqueueRemovals_nodup {α : Type} (inp : FrameInput) :
    ∀ (entries : List ((ℤ × ℤ) × α)) (rq : List ((ℤ × ℤ) × α)),
      (keysOf rq).Nodup →
      (keysOf (entries.foldl
        (fun rq e =>
          if (chunksVisible < |e.1.1 - currentChunkX inp| ∨
                chunksVisible < |e.1.2 - currentChunkZ inp|) ∧
              e.1 ∉ keysOf rq then
            rq ++ [e]
          else rq) rq)).Nodup := by
  intro entries
  induction entries with
  | nil => intro rq h; exact h
  | cons x entries ih =>
    intro rq h
    rw [List.foldl_cons]
    by_cases hg : (chunksVisible < |x.1.1 - currentChunkX inp| ∨
        chunksVisible < |x.1.2 - currentChunkZ inp|) ∧ x.1 ∉ keysOf rq
    · rw [if_pos hg]
      refine ih _ ?_
      simp only [keysOf, List.map_append, List.map_cons, List.map_nil]
      rw [List.nodup_append]
      refine ⟨h, List.nodup_singleton _, ?_⟩
      intro a ha hb
      rcases List.mem_singleton.1 hb with rfl
      exact hg.2 ha
    · rw [if_neg hg]
      exact ih _ h

theorem drainLoads_queue {α : Type} (gen : Nat → ℤ → ℤ → α × Nat) :
    ∀ (n : Nat) (q : List LoadItem) (store : List ((ℤ × ℤ) × α)) (ri : Nat),
      (drainLoads gen n q store ri).1 = q.drop n := by
  intro n
  induction n with
  | zero => intro q store ri; rfl
  | succ n ih =>
    intro q store ri
    cases q with
    | nil => rfl
    | cons it q => simpa [drainLoads] using ih q _ _

theorem drainLoads_store_mem {α : Type} (gen : Nat → ℤ → ℤ → α × Nat) :
    ∀ (n : Nat) (q : List LoadItem) (store : List ((ℤ × ℤ) × α)) (ri : Nat)
      (k : ℤ × ℤ),
      k ∈ keysOf (drainLoads gen n q store ri).2.1 ↔
        k ∈ keysOf store ∨ k ∈ qKeys (q.take n) := by
  intro n
  induction n with
  | zero => intro q store ri k; simp [drainLoads, qKeys]
  | succ n ih =>
    intro q store ri k
    cases q with
    | nil => simp [drainLoads, qKeys]
    | cons it q =>
      simp only [drainLoads, List.take_succ_cons, qKeys, List.map_cons]
      rw [ih]
      rw [mem_keysOf_storeSet]
      simp [qKeys]
      tauto

theorem drainLoads_store_nodup {α : Type} (gen : Nat → ℤ → ℤ → α × Nat) :
    ∀ (n : Nat) (q : List LoadItem) (store : List ((ℤ × ℤ) × α)) (ri : Nat),
      (keysOf store).Nodup → (qKeys q).Nodup →
      (∀ k ∈ qKeys q, k ∉ keysOf store) →
      (keysOf (drainLoads gen n q store ri).2.1).Nodup := by
  intro n
  induction n with
  | zero => intro q store ri hs _ _; exact hs
  | succ n ih =>
    intro q store ri hs hq hdisj
    cases q with
    | nil => exact hs
    | cons it q =>
      simp only [drainLoads]
      have hk0 : (it.cx, it.cz) ∉ keysOf store :=
        hdisj _ (by simp [qKeys])
      have hqk : (qKeys (it :: q)).Nodup := hq
      simp only [qKeys, List.map_cons, List.nodup_cons] at hqk
      refine ih q _ _ ?_ hqk.2 ?_
      · exact nodup_keysOf_storeSet _ _ _ hs
      · intro k hk hmem
        rw [mem_keysOf_storeSet] at hmem
        rcases hmem with hmem | rfl
        · exact hdisj k (by simp [qKeys] at hk ⊢; tauto) hmem
        · exact hqk.1 hk

theorem drainRemovals_queue {α : Type} :
    ∀ (n : Nat) (rq store : List ((ℤ × ℤ) × α)),
      (drainRemovals n rq store).1 = rq.drop n := by
  intro n
  induction n with
  | zero => intro rq store; rfl
  | succ n ih =>
    intro rq store
    cases rq with
    | nil => rfl
    | cons e rq => simpa [drainRemovals] using ih rq _

theorem drainRemovals_store_mem {α : Type} :
    ∀ (n : Nat) (rq store : List ((ℤ × ℤ) × α)) (k : ℤ × ℤ),
      k ∈ keysOf (drainRemovals n rq store).2 ↔
        k ∈ keysOf store ∧ k ∉ keysOf (rq.take n) := by
  intro n
  induction n with
  | zero => intro rq store k; simp [drainRemovals, keysOf]
  | succ n ih =>
    intro rq store k
    cases rq with
    | nil => simp [drainRemovals, keysOf]
    | cons e rq =>
      show k ∈ keysOf (drainRemovals n rq (storeDelete store e.1)).2 ↔ _
      rw [ih, mem_keysOf_storeDelete]
      simp only [List.take_succ_cons, keysOf, List.map_cons, List.mem_cons]
      tauto

theorem drainRemovals_store_nodup {α : Type} :
    ∀ (n : Nat) (rq store : List ((ℤ × ℤ) × α)),
      (keysOf store).Nodup →
      (keysOf (drainRemovals n rq store).2).Nodup := by
  intro n
  induction n with
  | zero => intro rq store h; exact h
  | succ n ih =>
    intro rq store h
    cases rq with
    | nil => exact h
    | cons e rq =>
      exact ih rq _ (nodup_keysOf_storeDelete _ _ h)

theorem stepSim_loadQ {α : Type} (gen : Nat → ℤ → ℤ → α × Nat)
    (inp : FrameInput) (s : SimState α) :
    (stepSim gen inp s).loadQ =
      ((enqueueLoads inp s.store s.loadQ).mergeSort priorityGE).drop
        chunksPerFrame := by
  simp only [stepSim]
  exact drainLoads_queue gen _ _ _ _

theorem stepSim_removalQ {α : Type} (gen : Nat → ℤ → ℤ → α × Nat)
    (inp : FrameInput) (s : SimState α) :
    (stepSim gen inp s).removalQ =
      (enqueueRemovals inp s.store s.removalQ).drop removalsPerFrame := by
  simp only [stepSim]
  exact drainRemovals_queue _ _ _

theorem stepSim_store_mem {α : Type} (gen : Nat → ℤ → ℤ → α × Nat)
    (inp : FrameInput) (s : SimState α) (k : ℤ × ℤ) :
    k ∈ keysOf (stepSim gen inp s).store ↔
      (k ∈ keysOf s.store ∨
        k ∈ qKeys (((enqueueLoads inp s.store s.loadQ).mergeSort
          priorityGE).take chunksPerFrame)) ∧
      k ∉ keysOf ((enqueueRemovals inp s.store s.removalQ).take
        removalsPerFrame) := by
  simp only [stepSim]
  rw [drainRemovals_store_mem, drainLoads_store_mem]

theorem stepSim_store_nodup {α : Type} (gen : Nat → ℤ → ℤ → α × Nat)
    (inp : FrameInput) (s : SimState α) (h : Inv s) :
    (keysOf (stepSim gen inp s).store).Nodup := by
  obtain ⟨hstore, hload, _, hdisj, _⟩ := h
  have hq1mem := enqueueLoads_mem inp s.store
    (wantCoords (currentChunkX inp) (currentChunkZ inp)) s.loadQ
  have hq1nodup := enqueueLoads_nodup inp s.store
    (wantCoords (currentChunkX inp) (currentChunkZ inp)) s.loadQ hload
  have hperm : List.Perm
      (qKeys ((enqueueLoads inp s.store s.loadQ).mergeSort priorityGE))
      (qKeys (enqueueLoads inp s.store s.loadQ)) :=
    (List.mergeSort_perm _ priorityGE).map _
  simp only [stepSim]
  refine drainRemovals_store_nodup _ _ _
    (drainLoads_store_nodup gen _ _ _ _ hstore (hperm.nodup_iff.2 hq1nodup) ?_)
  intro k hk
  have hk1 : k ∈ qKeys (enqueueLoads inp s.store s.loadQ) := hperm.mem_iff.1 hk
  simp only [qKeys, List.mem_map] at hk1
  obtain ⟨it, hit, rfl⟩ := hk1
  rcases hq1mem it hit with hold | ⟨_, hnew⟩
  · exact hdisj _ (List.mem_map_of_mem _ hold)
  · exact hnew

/-- Preservation of the C3 invariant across one `updateTerrain` step. -/
theorem stepSim_inv {α : Type} (gen : Nat → ℤ → ℤ → α × Nat)
    (inp : FrameInput) (s : SimState α) (h : Inv s) :
    Inv (stepSim gen inp s) := by
  obtain ⟨hstore, hload, hrem, hdisj, hsub⟩ := h
  have hq1mem := enqueueLoads_mem inp s.store
    (wantCoords (currentChunkX inp) (currentChunkZ inp)) s.loadQ
  have hq1nodup := enqueueLoads_nodup inp s.store
    (wantCoords (currentChunkX inp) (currentChunkZ inp)) s.loadQ hload
  have hq1disj : ∀ k ∈ qKeys (enqueueLoads inp s.store s.loadQ),
      k ∉ keysOf s.store := by
    intro k hk
    simp only [qKeys, List.mem_map] at hk
    obtain ⟨it, hit, rfl⟩ := hk
    rcases hq1mem it hit with hold | ⟨_, hnew⟩
    · exact hdisj _ (List.mem_map_of_mem _ hold)
    · exact hnew
  have hrq1mem := enqueueRemovals_mem inp s.store s.removalQ
  have hrq1nodup := enqueueRemovals_nodup inp s.store s.removalQ hrem
  have hrq1sub : ∀ k ∈ keysOf (enqueueRemovals inp s.store s.removalQ),
      k ∈ keysOf s.store := by
    intro k hk
    simp only [keysOf, List.mem_map] at hk
    obtain ⟨e, he, rfl⟩ := hk
    rcases hrq1mem e he with hold | hnew
    · exact hsub _ (List.mem_map_of_mem _ hold)
    · exact List.mem_map_of_mem _ hnew
  have hperm : List.Perm
      (qKeys ((enqueueLoads inp s.store s.loadQ).mergeSort priorityGE))
      (qKeys (enqueueLoads inp s.store s.loadQ)) :=
    (List.mergeSort_perm _ priorityGE).map _
  have hsortednodup : (qKeys ((enqueueLoads inp s.store s.loadQ).mergeSort
      priorityGE)).Nodup := hperm.nodup_iff.2 hq1nodup
  have hsorteddisj : ∀ k ∈ qKeys ((enqueueLoads inp s.store s.loadQ).mergeSort
      priorityGE), k ∉ keysOf s.store :=
    fun k hk => hq1disj k (hperm.mem_iff.1 hk)
  have hsplitq : qKeys (((enqueueLoads inp s.store s.loadQ).mergeSort
        priorityGE).take chunksPerFrame) ++
      qKeys (((enqueueLoads inp s.store s.loadQ).mergeSort
        priorityGE).drop chunksPerFrame) =
      qKeys ((enqueueLoads inp s.store s.loadQ).mergeSort priorityGE) := by
    unfold qKeys
    rw [← List.map_append, List.take_append_drop]
  have hsplitqnodup : (qKeys (((enqueueLoads inp s.store s.loadQ).mergeSort
        priorityGE).take chunksPerFrame) ++
      qKeys (((enqueueLoads inp s.store s.loadQ).mergeSort
        priorityGE).drop chunksPerFrame)).Nodup := by
    rw [hsplitq]; exact hsortednodup
  have hsplitr : keysOf ((enqueueRemovals inp s.store s.removalQ).take
        removalsPerFrame) ++
      keysOf ((enqueueRemovals inp s.store s.removalQ).drop
        removalsPerFrame) =
      keysOf (enqueueRemovals inp s.store s.removalQ) := by
    unfold keysOf
    rw [← List.map_append, List.take_append_drop]
  have hsplitrnodup : (keysOf ((enqueueRemovals inp s.store s.removalQ).take
        removalsPerFrame) ++
      keysOf ((enqueueRemovals inp s.store s.removalQ).drop
        removalsPerFrame)).Nodup := by
    rw [hsplitr]; exact hrq1nodup
  refine ⟨stepSim_store_nodup gen inp s
      ⟨hstore, hload, hrem, hdisj, hsub⟩, ?_, ?_, ?_, ?_⟩
  · rw [stepSim_loadQ]
    unfold qKeys
    rw [List.map_drop]
    exact List.Nodup.sublist (List.drop_sublist _ _) hsortednodup
  · rw [stepSim_removalQ]
    unfold keysOf
    rw [List.map_drop]
    exact List.Nodup.sublist (List.drop_sublist _ _) hrq1nodup
  · intro k hk
    rw [stepSim_loadQ] at hk
    have hkdrop : k ∈ qKeys (((enqueueLoads inp s.store s.loadQ).mergeSort
        priorityGE).drop chunksPerFrame) := hk
    have hksorted : k ∈ qKeys ((enqueueLoads inp s.store s.loadQ).mergeSort
        priorityGE) := by
      rw [← hsplitq]
      exact List.mem_append_right _ hkdrop
    have hknotake : k ∉ qKeys (((enqueueLoads inp s.store s.loadQ).mergeSort
        priorityGE).take chunksPerFrame) := by
      intro hkt
      rw [List.nodup_append] at hsplitqnodup
      exact hsplitqnodup.2.2 hkt hkdrop
    rw [stepSim_store_mem]
    rintro ⟨hin, -⟩
    rcases hin with hin | hin
    · exact hsorteddisj k hksorted hin
    · exact hknotake hin
  · intro k hk
    rw [stepSim_removalQ] at hk
    have hkdrop : k ∈ keysOf ((enqueueRemovals inp s.store s.removalQ).drop
        removalsPerFrame) := hk
    have hkrq1 : k ∈ keysOf (enqueueRemovals inp s.store s.removalQ) := by
      rw [← hsplitr]
      exact List.mem_append_right _ hkdrop
    have hknotake : k ∉ keysOf ((enqueueRemovals inp s.store s.removalQ).take
        removalsPerFrame) := by
      intro hkt
      rw [List.nodup_append] at hsplitrnodup
      exact hsplitrnodup.2.2 hkt hkdrop
    rw [stepSim_store_mem]
    exact ⟨Or.inl (hrq1sub k hkrq1), hknotake⟩

theorem initFold_keys {α : Type} (gen : Nat → ℤ → ℤ → α × Nat) :
    ∀ (coords : List (ℤ × ℤ)) (acc : List ((ℤ × ℤ) × α) × Nat),
      (keysOf acc.1 ++ coords).Nodup →
      keysOf (initFold gen coords acc).1 = keysOf acc.1 ++ coords := by
  intro coords
  induction coords with
  | nil => intro acc _; simp [initFold]
  | cons k coords ih =>
    intro acc h
    have hk : k ∉ keysOf acc.1 := by
      rw [List.nodup_append] at h
      intro hmem
      exact h.2.2 hmem (List.mem_cons_self _ _)
    simp only [initFold]
    rw [ih]
    · rw [keysOf_storeSet, if_neg hk, List.append_assoc]
      rfl
    · rw [keysOf_storeSet, if_neg hk, List.append_assoc]
      exact h

set_option maxRecDepth 100000 in
theorem initCoords_nodup : initCoords.Nodup :=
  of_decide_eq_true (by with_unfolding_all rfl)

set_option maxRecDepth 100000 in
theorem initSim_store_keys {α : Type} (gen : Nat → ℤ → ℤ → α × Nat) :
    keysOf (initSim gen).store = initCoords := by
  have h := initFold_keys gen initCoords ([], 0)
    (by simpa [keysOf] using initCoords_nodup)
  simp only [keysOf, List.map_nil, List.nil_append] at h
  simpa [initSim, keysOf] using h

/-- Claim C3: the scheduler invariants hold initially, are preserved by
every `updateTerrain` step — the store never holds two live entries for a
coordinate, neither queue holds a coordinate twice, load-queued
coordinates are absent from the store and removal-queued coordinates
present — and therefore hold after any sequence of steps.  Moreover a
coordinate is pushed on the load queue only when absent from the store, a
coordinate is pushed on the removal queue only when present in the store,
and after a step no stored (materialized) coordinate remains on the load
queue, so a materialized coordinate cannot be re-queued while it stays
resident. -/
theorem C3_scheduler_invariants {α : Type} (gen : Nat → ℤ → ℤ → α × Nat) :
    Inv (initSim gen) ∧
    (∀ (inp : FrameInput) (s : SimState α), Inv s →
      Inv (stepSim gen inp s) ∧
      (∀ it ∈ enqueueLoads inp s.store s.loadQ,
        it ∉ s.loadQ → (it.cx, it.cz) ∉ keysOf s.store) ∧
      (∀ e ∈ enqueueRemovals inp s.store s.removalQ,
        e ∉ s.removalQ → e.1 ∈ keysOf s.store) ∧
      (∀ k ∈ keysOf (stepSim gen inp s).store,
        k ∉ qKeys (stepSim gen inp s).loadQ)) ∧
    (∀ frames : List FrameInput, Inv (runSim gen frames (initSim gen))) := by
  have hinit : Inv (initSim gen) := by
    refine ⟨?_, ?_, ?_, ?_, ?_⟩
    · rw [initSim_store_keys]; exact initCoords_nodup
    · show (qKeys []).Nodup; simp [qKeys]
    · show (keysOf ([] : List ((ℤ × ℤ) × α))).Nodup; simp [keysOf]
    · intro k hk; simp [initSim, qKeys] at hk
    · intro k hk; simp [initSim, keysOf] at hk
  have hstep : ∀ (inp : FrameInput) (s : SimState α), Inv s →
      Inv (stepSim gen inp s) ∧
      (∀ it ∈ enqueueLoads inp s.store s.loadQ,
        it ∉ s.loadQ → (it.cx, it.cz) ∉ keysOf s.store) ∧
      (∀ e ∈ enqueueRemovals inp s.store s.removalQ,
        e ∉ s.removalQ → e.1 ∈ keysOf s.store) ∧
      (∀ k ∈ keysOf (stepSim gen inp s).store,
        k ∉ qKeys (stepSim gen inp s).loadQ) := by
    intro inp s hs
    have hinv := stepSim_inv gen inp s hs
    refine ⟨hinv, ?_, ?_, ?_⟩
    · intro it hit hnot
      rcases enqueueLoads_mem inp s.store _ s.loadQ it hit with hold | ⟨_, habs⟩
      · exact absurd hold hnot
      · exact habs
    · intro e he hnot
      rcases enqueueRemovals_mem inp s.store s.removalQ e he with hold | hmem
      · exact absurd hold hnot
      · exact List.mem_map_of_mem _ hmem
    · intro k hk hq
      exact hinv.2.2.2.1 k hq hk
  refine ⟨hinit, hstep, ?_⟩
  have hrun : ∀ (frames : List FrameInput) (s : SimState α), Inv s →
      Inv (runSim gen frames s) := by
    intro frames
    induction frames with
    | nil => intro s hs; exact hs
    | cons inp frames ih =>
      intro s hs
      show Inv (List.foldl _ _ (inp :: frames))
      rw [List.foldl_cons]
      exact ih _ ((hstep inp s hs).1)
  exact fun frames => hrun frames _ hinit

set_option maxRecDepth 100000 in
theorem initCoords_length :
    initCoords.length = ((2 * chunksVisible + 1) ^ 2).toNat :=
  of_decide_eq_true (by with_unfolding_all rfl)

/-- Chunk generator whose payload records nothing: the scheduler's control
flow never inspects chunk payloads. -/
def genU : Nat → ℤ → ℤ → Unit × Nat := fun i _ _ => ((), i)

/-- Frame with the observer at world x = 450: current chunk (1, 0),
progress 0.5, heading zero. -/
def frameA : FrameInput := { camX := 450, camZ := 0, dirX := 0, dirZ := 0 }

/-- Frame with the observer back at the origin: current chunk (0, 0). -/
def frameB : FrameInput := { camX := 0, camZ := 0, dirX := 0, dirZ := 0 }

set_option maxRecDepth 1000000 in
set_option maxHeartbeats 2000000 in
/-- Witness for `C3_scheduler_invariants`: the invariant holds for the
concrete initial state and is preserved by a concrete step. -/
theorem C3_scheduler_invariants_witness :
    Inv (initSim genU) ∧ Inv (stepSim genU frameA (initSim genU)) :=
  ⟨(C3_scheduler_invariants genU).1,
   ((C3_scheduler_invariants genU).2.1 frameA (initSim genU)
      (by unfold Inv; exact of_decide_eq_true (by with_unfolding_all rfl))).1⟩

/-- Claim C9: after construction and before the first scheduler step the
store contains exactly the `(2*chunksVisible+1)^2 = 121` coordinates with
`|x| ≤ chunksVisible` and `|z| ≤ chunksVisible`, inserted synchronously by
the `createInitialTerrain` double loop, and both the load queue and the
removal queue are empty (nothing passed through them or through the
`chunksPerFrame` budget). -/
theorem C9_initial_state {α : Type} (gen : Nat → ℤ → ℤ → α × Nat) :
    (initSim gen).loadQ = [] ∧
    (initSim gen).removalQ = [] ∧
    keysOf (initSim gen).store = initCoords ∧
    initCoords.length = ((2 * chunksVisible + 1) ^ 2).toNat ∧
    ∀ k : ℤ × ℤ, k ∈ initCoords ↔
      |k.1| ≤ chunksVisible ∧ |k.2| ≤ chunksVisible := by
  refine ⟨rfl, rfl, initSim_store_keys gen, initCoords_length, ?_⟩
  intro k
  simp only [initCoords, wantCoords, List.mem_flatMap, List.mem_map,
    List.mem_range, chunksVisible]
  constructor
  · rintro ⟨i, hi, j, hj, rfl⟩
    simp at hj
    obtain ⟨m, hm, rfl⟩ := hj
    simp only [abs_le]
    constructor <;> constructor <;> simp <;> omega
  · rintro ⟨h1, h2⟩
    rw [abs_le] at h1 h2
    refine ⟨(k.1 + 5).toNat, by omega, k.2 + 5, ?_, ?_⟩
    · simp
      exact ⟨(k.2 + 5).toNat, by omega, by omega⟩
    · rw [Prod.ext_iff]
      dsimp only
      constructor <;> omega

/-- Claim C10: a load-queue item's priority is fixed at enqueue time and
never recomputed: a surviving queued item whose coordinate was already
queued before the step is the very same record (same stale priority), and
the items drained by a step are the top `chunksPerFrame` of the queue
re-sorted descending by those enqueue-time priorities — every drained
item's priority is at least that of every item left behind. -/
theorem C10_stale_priorities {α : Type} (gen : Nat → ℤ → ℤ → α × Nat)
    (inp : FrameInput) (s : SimState α) :
    (stepSim gen inp s).loadQ =
      ((enqueueLoads inp s.store s.loadQ).mergeSort priorityGE).drop
        chunksPerFrame ∧
    (∀ it ∈ (stepSim gen inp s).loadQ,
      (it.cx, it.cz) ∈ qKeys s.loadQ → it ∈ s.loadQ) ∧
    (∀ it ∈ (stepSim gen inp s).loadQ,
      ∀ d ∈ ((enqueueLoads inp s.store s.loadQ).mergeSort priorityGE).take
        chunksPerFrame,
      it.priority ≤ d.priority) := by
  have hq := stepSim_loadQ gen inp s
  refine ⟨hq, ?_, ?_⟩
  · intro it hit hkey
    rw [hq] at hit
    have hsorted : it ∈ (enqueueLoads inp s.store s.loadQ).mergeSort
        priorityGE := List.mem_of_mem_drop hit
    have hmem : it ∈ enqueueLoads inp s.store s.loadQ :=
      List.mem_mergeSort.1 hsorted
    rcases enqueueLoads_mem inp s.store _ s.loadQ it hmem with hold | ⟨hnk, _⟩
    · exact hold
    · exact absurd hkey hnk
  · intro it hit d hd
    rw [hq] at hit
    have htrans : ∀ a b c : LoadItem, priorityGE a b = true →
        priorityGE b c = true → priorityGE a c = true := by
      intro a b c hab hbc
      simp only [priorityGE, decide_eq_true_iff] at hab hbc ⊢
      exact le_trans hbc hab
    have htotal : ∀ a b : LoadItem,
        (priorityGE a b || priorityGE b a) = true := by
      intro a b
      simp only [priorityGE]
      rcases le_total a.priority b.priority with h | h <;> simp [h]
    have hpw := List.sorted_mergeSort htrans htotal
      (enqueueLoads inp s.store s.loadQ)
    rw [← List.take_append_drop chunksPerFrame
      ((enqueueLoads inp s.store s.loadQ).mergeSort priorityGE),
      List.pairwise_append] at hpw
    have := hpw.2.2 d hd it hit
    simpa [priorityGE, decide_eq_true_iff] using this

/-- Claim C7 (amended): `updateTerrain` performs no want-set cancellation
on the removal queue.  Each step drains the first `removalsPerFrame`
entries of the post-enqueue removal queue and deletes their coordinates
from the store unconditionally — also when the coordinate lies within
`chunksVisible` of the observer's current chunk (`C7_counterexample`
exhibits such an eviction followed by a re-enqueue for load). -/
theorem C7_removals_drain_unconditionally {α : Type}
    (gen : Nat → ℤ → ℤ → α × Nat) (inp : FrameInput) (s : SimState α) :
    (stepSim gen inp s).removalQ =
      (enqueueRemovals inp s.store s.removalQ).drop removalsPerFrame ∧
    ∀ e ∈ (enqueueRemovals inp s.store s.removalQ).take removalsPerFrame,
      e.1 ∉ keysOf (stepSim gen inp s).store := by
  refine ⟨stepSim_removalQ gen inp s, ?_⟩
  intro e he
  rw [stepSim_store_mem]
  rintro ⟨-, hnot⟩
  exact hnot (List.mem_map_of_mem _ he)

set_option maxRecDepth 1000000 in
set_option maxHeartbeats 2000000 in
/-- Claim C7 is false: after one step at chunk (1,0) the coordinate
(-5,-3) sits on the removal queue while still stored; the observer then
returns to chunk (0,0), so (-5,-3) is inside the want-set at the start of
the next step, yet that step evicts it from the store instead of
de-queueing it, and the step after that re-enqueues it for load —
evict-then-recreate, exactly what the claim rules out. -/
theorem C7_counterexample :
    ((-5, -3) ∈ keysOf (stepSim genU frameA (initSim genU)).removalQ ∧
     (-5, -3) ∈ keysOf (stepSim genU frameA (initSim genU)).store ∧
     |(-5 : ℤ) - currentChunkX frameB| ≤ chunksVisible ∧
     |(-3 : ℤ) - currentChunkZ frameB| ≤ chunksVisible) ∧
    (-5, -3) ∉ keysOf
      (stepSim genU frameB (stepSim genU frameA (initSim genU))).store ∧
    (-5, -3) ∈ qKeys
      (stepSim genU frameB (stepSim genU frameB
        (stepSim genU frameA (initSim genU)))).loadQ :=
  of_decide_eq_true (by with_unfolding_all rfl)

/-! ### Startup and configuration (claim C8) -/

/-- The configuration constants assigned by the `FlightSimulator`
constructor. -/
structure Config where
  chunkSize : ℚ
  chunksVisible : ℤ
  loadThreshold : ℚ
  noiseScale : ℚ
  heightScale : ℚ
  lakeThreshold : ℚ
  lakeSize : ℚ
  treeDensity : ℚ
  chunksPerFrame : Nat
  lookAheadDistance : ℚ
  waterLevel : ℚ
  removalsPerFrame : Nat
  deriving DecidableEq

/-- How startup can end: the frame loop starts, or a fatal configuration
error is reported first (the outcome the spec describes for invalid
configurations). -/
inductive StartupOutcome where
  | started
  | configError
  deriving DecidableEq

/-- The constructor of `FlightSimulator` as a function of the constants it
assigns: it sets the fields, seeds the noise, builds the initial terrain
and immediately calls `animate()`.  It contains no conditional on any
configuration value and no error-reporting path, so it starts the frame
loop for every configuration. -/
def constructorStartup (_cfg : Config) : StartupOutcome := .started

/-- The configuration values hard-coded in the constructor. -/
def defaultConfig : Config :=
  { chunkSize := chunkSize
    chunksVisible := chunksVisible
    loadThreshold := loadThreshold
    noiseScale := noiseScale
    heightScale := heightScale
    lakeThreshold := lakeThreshold
    lakeSize := lakeSize
    treeDensity := treeDensity
    chunksPerFrame := chunksPerFrame
    lookAheadDistance := lookAheadDistance
    waterLevel := waterLevel
    removalsPerFrame := removalsPerFrame }

/-- Claim C8 is false: a configuration with chunk size 0, per-frame
budgets 0 and a visible radius smaller than the look-ahead distance is
not rejected — startup proceeds to the frame loop and no configuration
error is ever reported. -/
theorem C8_counterexample :
    constructorStartup
      { defaultConfig with
        chunkSize := 0, chunksPerFrame := 0, removalsPerFrame := 0,
        chunksVisible := 0 } = .started ∧
    ¬ (0 : ℚ) <
      ({ defaultConfig with
        chunkSize := 0, chunksPerFrame := 0, removalsPerFrame := 0,
        chunksVisible := 0 } : Config).chunkSize := by
  exact ⟨rfl, by norm_num⟩

/-- Claim C8 (amended): the program performs no configuration validation
at startup — the constructor starts the frame loop for every
configuration and has no error-reporting path.  The shipped hard-coded
constants do satisfy the constraints the spec lists (positive chunk size,
positive per-frame budgets, visible radius at least the look-ahead
distance), so the error cases cannot arise in the shipped build. -/
theorem C8_no_validation :
    (∀ cfg : Config, constructorStartup cfg = .started) ∧
    (0 : ℚ) < defaultConfig.chunkSize ∧
    0 < defaultConfig.chunksPerFrame ∧
    0 < defaultConfig.removalsPerFrame ∧
    defaultConfig.lookAheadDistance ≤ (defaultConfig.chunksVisible : ℚ) := by
  refine ⟨fun _ => rfl, ?_, ?_, ?_, ?_⟩ <;>
    norm_num [defaultConfig, chunkSize, chunksPerFrame, removalsPerFrame,
      lookAheadDistance, chunksVisible]

end Flight
